import Mathlib

/-!
Verification of the bank-queue simulator (src/coc-project-bank-queue.c).

The C program is embedded shallowly:

* machine `int` values that can go negative (arrival minutes, remaining
  service times, wait times, arrival totals) are modelled as `ℤ`; sizes and
  counters that never leave `ℕ` in any reachable state (storage count and
  capacity, stream indices) are modelled as `ℕ`;
* the linked-list queue is modelled as the list of arrival minutes from the
  `front` pointer to the `rear` pointer, together with the `customer_count`
  field that the C code maintains separately;
* the process-wide `rand()` source is modelled as an explicit stream
  `rand : ℕ → ℕ` of raw draws together with a cursor into the stream; the C
  expression `(double)rand() / RAND_MAX` becomes `(rand i : ℚ) / RAND_MAX`;
* `exp(-lambda)` is a `double` in the C code; the sampler is parameterised
  directly by that threshold `L : ℚ` (for `lambda > 0` one has `0 < L < 1`);
* the `do … while` loop of `get_poisson_random` need not terminate on an
  adversarial stream (all draws equal to `RAND_MAX`), so it takes explicit
  fuel and returns `none` when the fuel runs out; the simulation as a whole
  is therefore `Option`-valued;
* `realloc` failure in `add_wait_time` is modelled by an explicit `allocOk`
  flag; the returned `Bool` records whether the warning path (`perror`) was
  taken.  The simulation loop itself is run with allocation succeeding.
-/

/-! ## Simulation constants (section 1 of the C file) -/

def SIMULATION_MINUTES : ℕ := 480

def MIN_SERVICE_TIME : ℕ := 2

def MAX_SERVICE_TIME : ℕ := 3

def INITIAL_STORAGE_CAPACITY : ℕ := 100

/-- glibc value of `RAND_MAX`, the divisor in `(double)rand() / RAND_MAX`. -/
def RAND_MAX : ℕ := 2147483647

/-! ## Queue (section 2 of the C file) -/

/-- The linked-list queue: `front` is the chain of customers from the
`front` pointer to the `rear` pointer (each customer reduced to its
`arrival_minute` field), and `customer_count` is the separately maintained
count field. -/
structure Queue where
  front : List ℤ
  customer_count : ℤ
deriving Repr, DecidableEq

/-- `create_queue`: empty chain, count 0. -/
def create_queue : Queue := ⟨[], 0⟩

/-- `is_empty`: tests `front == NULL`. -/
def is_empty (q : Queue) : Bool := q.front.isEmpty

/-- `enqueue`: appends a customer with the given arrival minute at the rear
and increments `customer_count`. -/
def enqueue (q : Queue) (arrival_minute : ℤ) : Queue :=
  ⟨q.front ++ [arrival_minute], q.customer_count + 1⟩

/-- `dequeue`: removes and returns the front customer, or returns `none`
(NULL) leaving the queue unchanged when the queue is empty. -/
def dequeue (q : Queue) : Option ℤ × Queue :=
  match q.front with
  | [] => (none, q)
  | c :: rest => (some c, ⟨rest, q.customer_count - 1⟩)

/-! ## WaitTimeStorage (section 3 of the C file) -/

/-- The dynamic array of recorded wait times: `wait_times` is the list of
the first `count` slots of the C array (the only initialised ones), and
`capacity` its allocated size. -/
structure WaitTimeStorage where
  wait_times : List ℤ
  count : ℕ
  capacity : ℕ
deriving Repr, DecidableEq

/-- `create_storage`: empty, capacity `INITIAL_STORAGE_CAPACITY`. -/
def create_storage : WaitTimeStorage := ⟨[], 0, INITIAL_STORAGE_CAPACITY⟩

/-- `add_wait_time`: if the array is full, double the capacity via realloc;
`allocOk` says whether that realloc succeeds.  On failure the function
returns with the storage unchanged after calling `perror` (the `Bool` of the
result is `true` exactly on that warning path).  Otherwise the value is
stored at index `count` and `count` is incremented. -/
def add_wait_time (allocOk : Bool) (storage : WaitTimeStorage) (wait_time : ℤ) :
    WaitTimeStorage × Bool :=
  if storage.count = storage.capacity then
    if allocOk then
      (⟨storage.wait_times ++ [wait_time], storage.count + 1, storage.capacity * 2⟩, false)
    else
      (storage, true)
  else
    (⟨storage.wait_times ++ [wait_time], storage.count + 1, storage.capacity⟩, false)

/-! ## Random process generators (section 4 of the C file) -/

/-- One uniform draw `(double)rand() / RAND_MAX` at stream position `i`. -/
def uniformDraw (rand : ℕ → ℕ) (i : ℕ) : ℚ := (rand i : ℚ) / (RAND_MAX : ℚ)

/-- Product of the first `k` uniform draws starting at stream position
`i₀`. -/
def prodDraws (rand : ℕ → ℕ) (i₀ k : ℕ) : ℚ :=
  ∏ t ∈ Finset.range k, uniformDraw rand (i₀ + t)

/-- The `do { k++; p *= u; } while (p > L)` loop of `get_poisson_random`.
State: remaining fuel, running product `p`, counter `k` (a C `int`), stream
cursor `i`.  On exit the C function returns `k - 1`; the second component is
the stream cursor after the consumed draws. -/
def get_poisson_aux (L : ℚ) (rand : ℕ → ℕ) :
    ℕ → ℚ → ℤ → ℕ → Option (ℤ × ℕ)
  | 0, _, _, _ => none
  | fuel + 1, p, k, i =>
    let k' := k + 1
    let u := uniformDraw rand i
    let p' := p * u
    if L < p' then get_poisson_aux L rand fuel p' k' (i + 1)
    else some (k' - 1, i + 1)

/-- `get_poisson_random`: Knuth's product-of-uniforms sampler, with
`L = exp(-lambda)` precomputed, starting with `p = 1.0`, `k = 0` at stream
position `i`. -/
def get_poisson_random (L : ℚ) (rand : ℕ → ℕ) (fuel : ℕ) (i : ℕ) :
    Option (ℤ × ℕ) :=
  get_poisson_aux L rand fuel 1 0 i

/-- `get_service_time`: `(rand() % (MAX - MIN + 1)) + MIN`, consuming the
draw `r`. -/
def get_service_time (r : ℕ) : ℤ :=
  ((r % (MAX_SERVICE_TIME - MIN_SERVICE_TIME + 1) : ℕ) : ℤ) + (MIN_SERVICE_TIME : ℤ)

/-! ## Tellers and the simulation state (section 6 of the C file) -/

/-- One bank teller: `is_busy` and the minutes left until free. -/
structure Teller where
  is_busy : Bool
  remaining_service_time : ℤ
deriving Repr, DecidableEq

/-- The state owned by `run_simulation` between ticks. -/
structure SimState where
  bank_queue : Queue
  storage : WaitTimeStorage
  tellers : List Teller
  total_arrivals : ℤ
  rand_index : ℕ
deriving Repr, DecidableEq

/-- Step 1 of a tick, for one teller: if busy, decrement the remaining
time; a teller reaching exactly 0 becomes free. -/
def tick_teller (t : Teller) : Teller :=
  if t.is_busy then
    let r := t.remaining_service_time - 1
    if r = 0 then ⟨false, r⟩ else ⟨t.is_busy, r⟩
  else t

/-- The enqueue loop of step 2: `for (i = 0; i < new_arrivals; i++)
enqueue(bank_queue, current_minute)`. -/
def enqueue_n (q : Queue) (current_minute : ℤ) : ℕ → Queue
  | 0 => q
  | n + 1 => enqueue_n (enqueue q current_minute) current_minute n

/-- Step 3 of a tick: walk the teller array in index order; each free
teller facing a non-empty queue dequeues the front customer, records
`current_minute - arrival_minute` in the storage, and becomes busy with a
freshly sampled service time (consuming one raw draw).  Returns the updated
tellers, queue, storage and stream cursor. -/
def assign_tellers (rand : ℕ → ℕ) (current_minute : ℤ) :
    List Teller → Queue → WaitTimeStorage → ℕ →
    List Teller × Queue × WaitTimeStorage × ℕ
  | [], q, s, i => ([], q, s, i)
  | t :: rest, q, s, i =>
    if !t.is_busy && !(is_empty q) then
      match dequeue q with
      | (some arrival, q') =>
        let wait_time := current_minute - arrival
        let s' := (add_wait_time true s wait_time).1
        let t' : Teller := ⟨true, get_service_time (rand i)⟩
        let (ts, qf, sf, jf) := assign_tellers rand current_minute rest q' s' (i + 1)
        (t' :: ts, qf, sf, jf)
      | (none, q') =>
        -- dead branch: `is_empty` was checked just above
        let (ts, qf, sf, jf) := assign_tellers rand current_minute rest q' s i
        (t :: ts, qf, sf, jf)
    else
      let (ts, qf, sf, jf) := assign_tellers rand current_minute rest q s i
      (t :: ts, qf, sf, jf)

/-- One iteration of the main simulation loop at `current_minute`:
step 1 (free expiring tellers), step 2 (Poisson arrivals enqueued at the
current minute), step 3 (assign free tellers), in that fixed order.
`none` when the Poisson sampler runs out of fuel. -/
def sim_tick (L : ℚ) (rand : ℕ → ℕ) (fuel : ℕ) (current_minute : ℤ)
    (st : SimState) : Option SimState :=
  let tellers₁ := st.tellers.map tick_teller
  match get_poisson_random L rand fuel st.rand_index with
  | none => none
  | some (new_arrivals, i₁) =>
    let q₁ := enqueue_n st.bank_queue current_minute new_arrivals.toNat
    let total₁ := st.total_arrivals + new_arrivals
    match assign_tellers rand current_minute tellers₁ q₁ st.storage i₁ with
    | (tellers₂, q₂, s₂, i₂) => some ⟨q₂, s₂, tellers₂, total₁, i₂⟩

/-- The `for (current_minute = …)` loop: `remaining` ticks starting at
`current_minute`. -/
def sim_loop (L : ℚ) (rand : ℕ → ℕ) (fuel : ℕ) :
    ℕ → ℤ → SimState → Option SimState
  | 0, _, st => some st
  | n + 1, m, st =>
    match sim_tick L rand fuel m st with
    | none => none
    | some st' => sim_loop L rand fuel n (m + 1) st'

/-- The initial simulation state built by `run_simulation` before the loop:
fresh queue and storage, `num_tellers` free tellers, no arrivals, stream
cursor at the origin. -/
def init_state (num_tellers : ℕ) : SimState :=
  ⟨create_queue, create_storage, List.replicate num_tellers ⟨false, 0⟩, 0, 0⟩

/-- `run_simulation` (its computational core): the 480-iteration loop from
minute 0 on the initial state. -/
def run_simulation (L : ℚ) (num_tellers : ℕ) (rand : ℕ → ℕ) (fuel : ℕ) :
    Option SimState :=
  sim_loop L rand fuel SIMULATION_MINUTES 0 (init_state num_tellers)

/-! ## Behavioural lemmas for the random generators -/

lemma prodDraws_zero (rand : ℕ → ℕ) (i₀ : ℕ) : prodDraws rand i₀ 0 = 1 := by
  simp [prodDraws]

lemma prodDraws_succ (rand : ℕ → ℕ) (i₀ k : ℕ) :
    prodDraws rand i₀ (k + 1) = prodDraws rand i₀ k * uniformDraw rand (i₀ + k) := by
  simp [prodDraws, Finset.prod_range_succ]

lemma get_poisson_aux_sound (L : ℚ) (rand : ℕ → ℕ) (i₀ : ℕ) :
    ∀ (fuel c : ℕ) (n : ℤ) (j : ℕ),
      (∀ m : ℕ, 1 ≤ m → m ≤ c → L < prodDraws rand i₀ m) →
      get_poisson_aux L rand fuel (prodDraws rand i₀ c) (c : ℤ) (i₀ + c) = some (n, j) →
      ∃ d : ℕ, n = (d : ℤ) - 1 ∧ 1 ≤ d ∧ j = i₀ + d ∧
        prodDraws rand i₀ d ≤ L ∧ ∀ m : ℕ, 1 ≤ m → m < d → L < prodDraws rand i₀ m
  | 0, c, n, j, _, h => by simp [get_poisson_aux] at h
  | fuel + 1, c, n, j, hist, h => by
    rw [get_poisson_aux] at h
    simp only [← prodDraws_succ rand i₀ c] at h
    by_cases hc : L < prodDraws rand i₀ (c + 1)
    · rw [if_pos hc] at h
      have hist' : ∀ m : ℕ, 1 ≤ m → m ≤ c + 1 → L < prodDraws rand i₀ m := by
        intro m hm1 hm2
        rcases Nat.lt_or_ge m (c + 1) with hlt | hge
        · exact hist m hm1 (Nat.lt_succ_iff.mp hlt)
        · have : m = c + 1 := le_antisymm hm2 hge
          subst this; exact hc
      have hrec := get_poisson_aux_sound L rand i₀ fuel (c + 1) n j hist'
      have harg : ((c : ℤ) + 1) = ((c + 1 : ℕ) : ℤ) := by push_cast; ring
      rw [harg, Nat.add_assoc] at h
      exact hrec h
    · rw [if_neg hc] at h
      simp only [Option.some_inj, Prod.mk.injEq] at h
      refine ⟨c + 1, ?_, Nat.succ_le_succ (Nat.zero_le c), ?_, le_of_not_lt hc, ?_⟩
      · push_cast; omega
      · omega
      · intro m hm1 hm2
        exact hist m hm1 (by omega)

lemma get_poisson_random_sound (L : ℚ) (rand : ℕ → ℕ) (fuel i : ℕ) (n : ℤ) (j : ℕ)
    (h : get_poisson_random L rand fuel i = some (n, j)) :
    ∃ d : ℕ, n = (d : ℤ) - 1 ∧ 1 ≤ d ∧ j = i + d ∧
      prodDraws rand i d ≤ L ∧ ∀ m : ℕ, 1 ≤ m → m < d → L < prodDraws rand i m := by
  have h0 : get_poisson_aux L rand fuel (prodDraws rand i 0) ((0 : ℕ) : ℤ) (i + 0) =
      some (n, j) := by
    rw [prodDraws_zero]; simpa [get_poisson_random] using h
  exact get_poisson_aux_sound L rand i fuel 0 n j (by omega) h0

lemma get_poisson_random_nonneg (L : ℚ) (rand : ℕ → ℕ) (fuel i : ℕ) (n : ℤ) (j : ℕ)
    (h : get_poisson_random L rand fuel i = some (n, j)) : 0 ≤ n := by
  obtain ⟨d, hd, hd1, -, -, -⟩ := get_poisson_random_sound L rand fuel i n j h
  omega

/-- Evaluation of the sampler on the all-zero stream (used to exhibit completed runs). -/
lemma get_poisson_random_zero_stream (L : ℚ) (hL : 0 ≤ L) (i : ℕ) :
    get_poisson_random L (fun _ => 0) 1 i = some (0, i + 1) := by
  rw [get_poisson_random, get_poisson_aux]
  simp [uniformDraw]
  intro hcon
  exact absurd (lt_of_le_of_lt hL hcon) (lt_irrefl 0)

/-! ## Storage and enqueue-loop lemmas -/

lemma add_wait_time_true_fst (s : WaitTimeStorage) (w : ℤ) :
    (add_wait_time true s w).1.wait_times = s.wait_times ++ [w] ∧
    (add_wait_time true s w).1.count = s.count + 1 := by
  unfold add_wait_time
  split <;> simp

lemma enqueue_n_front (m : ℤ) :
    ∀ (k : ℕ) (q : Queue), (enqueue_n q m k).front = q.front ++ List.replicate k m
  | 0, q => by simp [enqueue_n]
  | k + 1, q => by
    rw [enqueue_n, enqueue_n_front m k]
    simp [enqueue, List.replicate_succ]

lemma enqueue_n_count (m : ℤ) :
    ∀ (k : ℕ) (q : Queue), (enqueue_n q m k).customer_count = q.customer_count + k
  | 0, q => by simp [enqueue_n]
  | k + 1, q => by
    rw [enqueue_n, enqueue_n_count m k]
    simp [enqueue]
    ring

/-! ## Simulation invariants -/

/-- Every free teller shows zero remaining service time. -/
def TellerInv (ts : List Teller) : Prop :=
  ∀ t ∈ ts, t.is_busy = false → t.remaining_service_time = 0

/-- The counters of a state are consistent with its contents and the
conservation law holds: arrivals = recorded + still waiting. -/
def Conserved (st : SimState) : Prop :=
  st.total_arrivals = (st.storage.count : ℤ) + st.bank_queue.customer_count ∧
  st.storage.count = st.storage.wait_times.length ∧
  st.bank_queue.customer_count = (st.bank_queue.front.length : ℤ)

/-- Every waiting customer arrived no later than minute `m`. -/
def ArrivalsBounded (m : ℤ) (st : SimState) : Prop :=
  ∀ a ∈ st.bank_queue.front, a ≤ m

/-- Every recorded wait time is non-negative. -/
def WaitsNonneg (st : SimState) : Prop :=
  ∀ w ∈ st.storage.wait_times, 0 ≤ w

lemma tick_teller_inv (t : Teller) (h : t.is_busy = false → t.remaining_service_time = 0) :
    (tick_teller t).is_busy = false → (tick_teller t).remaining_service_time = 0 := by
  obtain ⟨b, r⟩ := t
  cases b
  · simpa [tick_teller] using h
  · by_cases hr : r - 1 = 0
    · simp [tick_teller, hr]
    · simp [tick_teller, hr]

lemma tellerInv_map_tick (ts : List Teller) (h : TellerInv ts) :
    TellerInv (ts.map tick_teller) := by
  intro t ht
  obtain ⟨u, hu, rfl⟩ := List.mem_map.mp ht
  exact tick_teller_inv u (h u hu)

/-- What one pass of the assignment loop does to the queue and the storage:
some prefix of length `k` of the waiting customers is served, its wait
times `m - a` are appended to the storage in order, and the counters move
by exactly `k`. -/
lemma assign_tellers_shape (rand : ℕ → ℕ) (m : ℤ) :
    ∀ (ts : List Teller) (q : Queue) (s : WaitTimeStorage) (i : ℕ),
      ∃ k : ℕ, k ≤ q.front.length ∧
        (assign_tellers rand m ts q s i).2.1.front = q.front.drop k ∧
        (assign_tellers rand m ts q s i).2.1.customer_count = q.customer_count - k ∧
        (assign_tellers rand m ts q s i).2.2.1.wait_times =
          s.wait_times ++ (q.front.take k).map (fun a => m - a) ∧
        (assign_tellers rand m ts q s i).2.2.1.count = s.count + k
  | [], q, s, i => ⟨0, by simp [assign_tellers]⟩
  | t :: rest, q, s, i => by
    by_cases hcond : (!t.is_busy && !(is_empty q)) = true
    · have hne : q.front ≠ [] := by
        intro hnil
        simp [is_empty, hnil] at hcond
      obtain ⟨c, restf, hq⟩ := List.exists_cons_of_ne_nil hne
      have hdq : dequeue q = (some c, ⟨restf, q.customer_count - 1⟩) := by
        simp [dequeue, hq]
      rw [assign_tellers, if_pos hcond, hdq]
      obtain ⟨hw, hcnt⟩ := add_wait_time_true_fst s (m - c)
      obtain ⟨k, hk, h1, h2, h3, h4⟩ :=
        assign_tellers_shape rand m rest ⟨restf, q.customer_count - 1⟩
          (add_wait_time true s (m - c)).1 (i + 1)
      simp only at hk h1 h2 h3 h4
      refine ⟨k + 1, ?_, ?_, ?_, ?_, ?_⟩
      · simp [hq]; omega
      · simp [hq, h1]
      · simp only [h2, hcnt]
        push_cast
        ring
      · simp only [h3, hw, hq]
        simp [List.append_assoc]
      · simp only [h4, hcnt]
        omega
    · rw [assign_tellers, if_neg hcond]
      obtain ⟨k, hk, h1, h2, h3, h4⟩ := assign_tellers_shape rand m rest q s i
      exact ⟨k, hk, h1, h2, h3, h4⟩

/-- The assignment loop preserves the free-teller invariant: tellers it
touches become busy, tellers it skips are unchanged. -/
lemma assign_tellers_tellerInv (rand : ℕ → ℕ) (m : ℤ) :
    ∀ (ts : List Teller) (q : Queue) (s : WaitTimeStorage) (i : ℕ),
      TellerInv ts → TellerInv (assign_tellers rand m ts q s i).1
  | [], q, s, i, h => by simpa [assign_tellers] using h
  | t :: rest, q, s, i, h => by
    have hrest : TellerInv rest := fun u hu => h u (List.mem_cons_of_mem t hu)
    have ht : t.is_busy = false → t.remaining_service_time = 0 :=
      h t (List.mem_cons_self t rest)
    by_cases hcond : (!t.is_busy && !(is_empty q)) = true
    · have hne : q.front ≠ [] := by
        intro hnil
        simp [is_empty, hnil] at hcond
      obtain ⟨c, restf, hq⟩ := List.exists_cons_of_ne_nil hne
      have hdq : dequeue q = (some c, ⟨restf, q.customer_count - 1⟩) := by
        simp [dequeue, hq]
      rw [assign_tellers, if_pos hcond, hdq]
      have hrec := assign_tellers_tellerInv rand m rest ⟨restf, q.customer_count - 1⟩
        (add_wait_time true s (m - c)).1 (i + 1) hrest
      intro u hu hbusy
      rcases List.mem_cons.mp hu with rfl | hu2
      · simp at hbusy
      · exact hrec u hu2 hbusy
    · rw [assign_tellers, if_neg hcond]
      have hrec := assign_tellers_tellerInv rand m rest q s i hrest
      intro u hu hbusy
      rcases List.mem_cons.mp hu with rfl | hu2
      · exact ht hbusy
      · exact hrec u hu2 hbusy

/-! ## One tick, characterised -/

/-- Successful ticks decompose into the three phases in their fixed order:
teller decrement, Poisson arrivals enqueued at the current minute, then
assignment of free tellers. -/
lemma sim_tick_some (L : ℚ) (rand : ℕ → ℕ) (fuel : ℕ) (m : ℤ) (st st' : SimState)
    (h : sim_tick L rand fuel m st = some st') :
    ∃ (n : ℤ) (i₁ : ℕ),
      get_poisson_random L rand fuel st.rand_index = some (n, i₁) ∧
      st'.tellers = (assign_tellers rand m (st.tellers.map tick_teller)
          (enqueue_n st.bank_queue m n.toNat) st.storage i₁).1 ∧
      st'.bank_queue = (assign_tellers rand m (st.tellers.map tick_teller)
          (enqueue_n st.bank_queue m n.toNat) st.storage i₁).2.1 ∧
      st'.storage = (assign_tellers rand m (st.tellers.map tick_teller)
          (enqueue_n st.bank_queue m n.toNat) st.storage i₁).2.2.1 ∧
      st'.total_arrivals = st.total_arrivals + n ∧
      st'.rand_index = (assign_tellers rand m (st.tellers.map tick_teller)
          (enqueue_n st.bank_queue m n.toNat) st.storage i₁).2.2.2 := by
  unfold sim_tick at h
  cases hp : get_poisson_random L rand fuel st.rand_index with
  | none => rw [hp] at h; simp at h
  | some v =>
    obtain ⟨n, i₁⟩ := v
    rw [hp] at h
    simp only at h
    refine ⟨n, i₁, rfl, ?_⟩
    rcases ha : assign_tellers rand m (st.tellers.map tick_teller)
        (enqueue_n st.bank_queue m n.toNat) st.storage i₁ with ⟨t2, q2, s2, i2⟩
    rw [ha] at h
    simp only [Option.some_inj] at h
    subst h
    simp [ha]

lemma sim_tick_conserved (L : ℚ) (rand : ℕ → ℕ) (fuel : ℕ) (m : ℤ) (st st' : SimState)
    (hc : Conserved st) (h : sim_tick L rand fuel m st = some st') : Conserved st' := by
  obtain ⟨n, i₁, hp, -, hq, hs, htot, -⟩ := sim_tick_some L rand fuel m st st' h
  have hn : 0 ≤ n := get_poisson_random_nonneg L rand fuel st.rand_index n i₁ hp
  obtain ⟨k, hk, g1, g2, g3, g4⟩ := assign_tellers_shape rand m (st.tellers.map tick_teller)
    (enqueue_n st.bank_queue m n.toNat) st.storage i₁
  obtain ⟨c1, c2, c3⟩ := hc
  have hq1f := enqueue_n_front m n.toNat st.bank_queue
  have hq1c := enqueue_n_count m n.toNat st.bank_queue
  rw [hq1f] at hk g1 g3
  rw [hq1c] at g2
  refine ⟨?_, ?_, ?_⟩
  · rw [htot, hs, hq, g4, g2]
    push_cast
    omega
  · rw [hs, g3, g4]
    simp [List.length_take]
    simp at hk
    omega
  · rw [hq, g1, g2]
    simp [List.length_drop]
    simp at hk
    omega

lemma sim_tick_tellerInv (L : ℚ) (rand : ℕ → ℕ) (fuel : ℕ) (m : ℤ) (st st' : SimState)
    (hti : TellerInv st.tellers) (h : sim_tick L rand fuel m st = some st') :
    TellerInv st'.tellers := by
  obtain ⟨n, i₁, -, ht, -, -, -, -⟩ := sim_tick_some L rand fuel m st st' h
  rw [ht]
  exact assign_tellers_tellerInv rand m _ _ _ _ (tellerInv_map_tick _ hti)

lemma sim_tick_bounded_nonneg (L : ℚ) (rand : ℕ → ℕ) (fuel : ℕ) (m : ℤ) (st st' : SimState)
    (hb : ArrivalsBounded m st) (hw : WaitsNonneg st)
    (h : sim_tick L rand fuel m st = some st') :
    ArrivalsBounded m st' ∧ WaitsNonneg st' := by
  obtain ⟨n, i₁, -, -, hq, hs, -, -⟩ := sim_tick_some L rand fuel m st st' h
  obtain ⟨k, hk, g1, g2, g3, g4⟩ := assign_tellers_shape rand m (st.tellers.map tick_teller)
    (enqueue_n st.bank_queue m n.toNat) st.storage i₁
  have hq1 : ∀ a ∈ (enqueue_n st.bank_queue m n.toNat).front, a ≤ m := by
    rw [enqueue_n_front]
    intro a ha
    rcases List.mem_append.mp ha with h1 | h2
    · exact hb a h1
    · rw [List.eq_of_mem_replicate h2]
  constructor
  · intro a ha
    rw [hq, g1] at ha
    exact hq1 a (List.mem_of_mem_drop ha)
  · intro w hww
    rw [hs, g3] at hww
    rcases List.mem_append.mp hww with h1 | h2
    · exact hw w h1
    · obtain ⟨a, ha, rfl⟩ := List.mem_map.mp h2
      have := hq1 a (List.mem_of_mem_take ha)
      omega

/-! ## Loop-level invariants -/

lemma sim_loop_conserved (L : ℚ) (rand : ℕ → ℕ) (fuel : ℕ) :
    ∀ (n : ℕ) (m : ℤ) (st st' : SimState), Conserved st →
      sim_loop L rand fuel n m st = some st' → Conserved st'
  | 0, m, st, st', hc, h => by
    simp [sim_loop] at h
    rwa [← h]
  | n + 1, m, st, st', hc, h => by
    rw [sim_loop] at h
    cases ht : sim_tick L rand fuel m st with
    | none => rw [ht] at h; simp at h
    | some st₁ =>
      rw [ht] at h
      exact sim_loop_conserved L rand fuel n (m + 1) st₁ st'
        (sim_tick_conserved L rand fuel m st st₁ hc ht) h

lemma sim_loop_tellerInv (L : ℚ) (rand : ℕ → ℕ) (fuel : ℕ) :
    ∀ (n : ℕ) (m : ℤ) (st st' : SimState), TellerInv st.tellers →
      sim_loop L rand fuel n m st = some st' → TellerInv st'.tellers
  | 0, m, st, st', hc, h => by
    simp [sim_loop] at h
    rwa [← h]
  | n + 1, m, st, st', hc, h => by
    rw [sim_loop] at h
    cases ht : sim_tick L rand fuel m st with
    | none => rw [ht] at h; simp at h
    | some st₁ =>
      rw [ht] at h
      exact sim_loop_tellerInv L rand fuel n (m + 1) st₁ st'
        (sim_tick_tellerInv L rand fuel m st st₁ hc ht) h

lemma sim_loop_nonneg (L : ℚ) (rand : ℕ → ℕ) (fuel : ℕ) :
    ∀ (n : ℕ) (m : ℤ) (st st' : SimState), ArrivalsBounded m st → WaitsNonneg st →
      sim_loop L rand fuel n m st = some st' → WaitsNonneg st'
  | 0, m, st, st', hb, hw, h => by
    simp [sim_loop] at h
    rwa [← h]
  | n + 1, m, st, st', hb, hw, h => by
    rw [sim_loop] at h
    cases ht : sim_tick L rand fuel m st with
    | none => rw [ht] at h; simp at h
    | some st₁ =>
      rw [ht] at h
      obtain ⟨hb₁, hw₁⟩ := sim_tick_bounded_nonneg L rand fuel m st st₁ hb hw ht
      exact sim_loop_nonneg L rand fuel n (m + 1) st₁ st'
        (fun a ha => le_trans (hb₁ a ha) (by omega)) hw₁ h

/-! ## A concrete completed run (all raw draws zero: no arrivals) -/

lemma sim_tick_zero_run (m : ℤ) (i : ℕ) :
    sim_tick (1/2) (fun _ => 0) 1 m ⟨⟨[], 0⟩, ⟨[], 0, 100⟩, [⟨false, 0⟩], 0, i⟩ =
      some ⟨⟨[], 0⟩, ⟨[], 0, 100⟩, [⟨false, 0⟩], 0, i + 1⟩ := by
  unfold sim_tick
  rw [show (⟨⟨[], 0⟩, ⟨[], 0, 100⟩, [⟨false, 0⟩], 0, i⟩ : SimState).rand_index = i from rfl]
  rw [get_poisson_random_zero_stream (1/2) (by norm_num) i]
  simp [enqueue_n, assign_tellers, is_empty, tick_teller]

lemma sim_loop_zero_run :
    ∀ (n : ℕ) (m : ℤ) (i : ℕ),
      sim_loop (1/2) (fun _ => 0) 1 n m ⟨⟨[], 0⟩, ⟨[], 0, 100⟩, [⟨false, 0⟩], 0, i⟩ =
        some ⟨⟨[], 0⟩, ⟨[], 0, 100⟩, [⟨false, 0⟩], 0, i + n⟩
  | 0, m, i => by simp [sim_loop]
  | n + 1, m, i => by
    rw [sim_loop, sim_tick_zero_run m i]
    simp only
    rw [sim_loop_zero_run n (m + 1) (i + 1)]
    simp
    omega

/-- The all-zero stream yields a completed 480-minute run with no
arrivals. -/
lemma run_simulation_zero :
    run_simulation (1/2) 1 (fun _ => 0) 1 =
      some ⟨⟨[], 0⟩, ⟨[], 0, 100⟩, [⟨false, 0⟩], 0, 480⟩ := by
  have h := sim_loop_zero_run SIMULATION_MINUTES 0 0
  unfold run_simulation init_state create_queue create_storage
  simp only [List.replicate, INITIAL_STORAGE_CAPACITY]
  rw [h]
  norm_num [SIMULATION_MINUTES]

/-! ## Claim theorems: conservation, teller invariant, wait non-negativity,
determinism -/

/-- C1: after the full 480-tick loop of `run_simulation`, for every
`lambda > 0` (threshold `0 < L < 1`), every `num_tellers ≥ 1` and every
random stream on which the run completes, the ledger count equals the
number of recorded wait times (one per successful assignment), and
`total_arrivals - ledger.count()` equals the number of customers still
waiting: `total_arrivals = count + queue.size` (conservation law). -/
theorem run_simulation_conservation (L : ℚ) (_hL0 : 0 < L) (_hL1 : L < 1)
    (num_tellers : ℕ) (_hn : 1 ≤ num_tellers) (rand : ℕ → ℕ) (fuel : ℕ)
    (st : SimState) (h : run_simulation L num_tellers rand fuel = some st) :
    st.total_arrivals = (st.storage.count : ℤ) + st.bank_queue.customer_count ∧
    st.storage.count = st.storage.wait_times.length ∧
    st.bank_queue.customer_count = (st.bank_queue.front.length : ℤ) := by
  have hinit : Conserved (init_state num_tellers) := by
    refine ⟨?_, ?_, ?_⟩ <;> simp [init_state, create_queue, create_storage]
  exact sim_loop_conserved L rand fuel SIMULATION_MINUTES 0 _ st hinit h

theorem run_simulation_conservation_witness :
    (0 : ℤ) = ((0 : ℕ) : ℤ) + 0 ∧
    (0 : ℕ) = ([] : List ℤ).length ∧
    (0 : ℤ) = (([] : List ℤ).length : ℤ) :=
  run_simulation_conservation (1/2) (by norm_num) (by norm_num) 1 (by norm_num)
    (fun _ => 0) 1 ⟨⟨[], 0⟩, ⟨[], 0, 100⟩, [⟨false, 0⟩], 0, 480⟩ run_simulation_zero

/-- C6: `remaining_service_time = 0` whenever `is_busy` is false.  The
invariant holds after initialization, is preserved by every prefix of the
simulation loop (decrement-and-free phase and assignment phase), and the
assignment phase samples service times of at least `MIN_SERVICE_TIME = 2`. -/
theorem teller_busy_flag_invariant (L : ℚ) (rand : ℕ → ℕ) (fuel num_tellers : ℕ) :
    TellerInv (init_state num_tellers).tellers ∧
    (∀ (n : ℕ) (m : ℤ) (st st' : SimState), TellerInv st.tellers →
      sim_loop L rand fuel n m st = some st' → TellerInv st'.tellers) ∧
    (∀ r : ℕ, (MIN_SERVICE_TIME : ℤ) ≤ get_service_time r) := by
  refine ⟨?_, ?_, ?_⟩
  · intro t ht _
    rw [List.eq_of_mem_replicate ht]
  · intro n m st st' h1 h2
    exact sim_loop_tellerInv L rand fuel n m st st' h1 h2
  · intro r
    unfold get_service_time
    omega

theorem teller_busy_flag_invariant_witness :
    TellerInv (⟨⟨[], 0⟩, ⟨[], 0, 100⟩, [⟨false, 0⟩], 0, 480⟩ : SimState).tellers :=
  (teller_busy_flag_invariant (1/2) (fun _ => 0) 1 1).2.1 SIMULATION_MINUTES 0
    (init_state 1) ⟨⟨[], 0⟩, ⟨[], 0, 100⟩, [⟨false, 0⟩], 0, 480⟩
    ((teller_busy_flag_invariant (1/2) (fun _ => 0) 1 1).1) run_simulation_zero

/-- C9: every wait time recorded at assignment is
`current_tick - arrival_tick ≥ 0`: in every reachable state each queued
arrival tick is at most the current tick, so the ledger never receives a
negative value. -/
theorem run_simulation_waits_nonneg (L : ℚ) (_hL0 : 0 < L) (_hL1 : L < 1)
    (num_tellers : ℕ) (_hn : 1 ≤ num_tellers) (rand : ℕ → ℕ) (fuel : ℕ)
    (st : SimState) (h : run_simulation L num_tellers rand fuel = some st) :
    WaitsNonneg st := by
  have hb : ArrivalsBounded 0 (init_state num_tellers) := by
    intro a ha
    simp [init_state, create_queue] at ha
  have hw : WaitsNonneg (init_state num_tellers) := by
    intro w hw
    simp [init_state, create_storage] at hw
  exact sim_loop_nonneg L rand fuel SIMULATION_MINUTES 0 _ st hb hw h

theorem run_simulation_waits_nonneg_witness :
    WaitsNonneg ⟨⟨[], 0⟩, ⟨[], 0, 100⟩, [⟨false, 0⟩], 0, 480⟩ :=
  run_simulation_waits_nonneg (1/2) (by norm_num) (by norm_num) 1 (by norm_num)
    (fun _ => 0) 1 ⟨⟨[], 0⟩, ⟨[], 0, 100⟩, [⟨false, 0⟩], 0, 480⟩ run_simulation_zero

/-- C10: the simulation is a deterministic function of the injected random
source: two runs with the same `lambda` (threshold), the same
`num_tellers`, and pointwise-identical random streams produce identical
final states — identical `total_arrivals`, ledger contents and queue
contents.  (Assignment walks the teller array by ascending index, so no
other source of nondeterminism exists.) -/
theorem run_simulation_deterministic (L : ℚ) (num_tellers : ℕ) (fuel : ℕ)
    (r₁ r₂ : ℕ → ℕ) (h : ∀ i, r₁ i = r₂ i) :
    run_simulation L num_tellers r₁ fuel = run_simulation L num_tellers r₂ fuel := by
  have : r₁ = r₂ := funext h
  rw [this]

theorem run_simulation_deterministic_witness :
    run_simulation (1/2) 1 (fun _ => 0) 1 = run_simulation (1/2) 1 (fun i => i * 0) 1 :=
  run_simulation_deterministic (1/2) 1 1 (fun _ => 0) (fun i => i * 0)
    (fun i => by simp)

/-! ## Claim theorems: per-tick phase order -/

lemma dequeue_cons (q : Queue) (c : ℤ) (l : List ℤ) (h : q.front = c :: l) :
    dequeue q = (some c, ⟨l, q.customer_count - 1⟩) := by
  simp [dequeue, h]

/-- C2: the three phases of a tick run in a fixed order — decrement busy
tellers, enqueue the sampled arrivals at the current tick, then assign idle
tellers — so a teller whose remaining time expires in phase 1 of tick `m`
serves a customer who arrives in phase 2 of the same tick `m`, and since
wait times are computed from the post-arrival current tick, that customer's
recorded wait time is `m - m = 0`. -/
theorem sim_tick_same_minute_zero_wait (L : ℚ) (rand : ℕ → ℕ) (fuel : ℕ) (m : ℤ)
    (st : SimState) (n : ℤ) (i₁ : ℕ)
    (hT : st.tellers = [⟨true, 1⟩])
    (hQ : st.bank_queue.front = [])
    (hp : get_poisson_random L rand fuel st.rand_index = some (n, i₁))
    (hn : 1 ≤ n) :
    sim_tick L rand fuel m st = some
      ⟨⟨List.replicate (n.toNat - 1) m, st.bank_queue.customer_count + n - 1⟩,
       (add_wait_time true st.storage 0).1,
       [⟨true, get_service_time (rand i₁)⟩],
       st.total_arrivals + n,
       i₁ + 1⟩ := by
  have hfront : (enqueue_n st.bank_queue m n.toNat).front =
      m :: List.replicate (n.toNat - 1) m := by
    rw [enqueue_n_front, hQ]
    have hsplit : n.toNat = (n.toNat - 1) + 1 := by omega
    rw [hsplit, List.replicate_succ]
    simp
  have hcc : (enqueue_n st.bank_queue m n.toNat).customer_count =
      st.bank_queue.customer_count + n.toNat := enqueue_n_count m n.toNat st.bank_queue
  have htick : tick_teller ⟨true, 1⟩ = ⟨false, 0⟩ := by
    simp [tick_teller]
  have hcond : (!(Teller.mk false 0).is_busy &&
      !(is_empty (enqueue_n st.bank_queue m n.toNat))) = true := by
    simp [is_empty, hfront]
  have hassign : assign_tellers rand m [⟨false, 0⟩]
      (enqueue_n st.bank_queue m n.toNat) st.storage i₁ =
      ([⟨true, get_service_time (rand i₁)⟩],
       ⟨List.replicate (n.toNat - 1) m,
        (enqueue_n st.bank_queue m n.toNat).customer_count - 1⟩,
       (add_wait_time true st.storage (m - m)).1, i₁ + 1) := by
    rw [assign_tellers, if_pos hcond, dequeue_cons _ _ _ hfront]
    simp [assign_tellers]
  unfold sim_tick
  rw [hp]
  simp only
  rw [hT]
  simp only [List.map_cons, List.map_nil, htick]
  rw [hassign]
  simp only [Option.some_inj]
  rw [hcc]
  have hm : m - m = 0 := by ring
  rw [hm]
  have hcast : st.bank_queue.customer_count + ((n.toNat : ℤ)) - 1 =
      st.bank_queue.customer_count + n - 1 := by omega
  rw [hcast]

/-- Random stream used in the phase-order witness: the first draw is
`RAND_MAX` (uniform value 1), all later draws are 0. -/
def witnessRand (i : ℕ) : ℕ := if i = 0 then RAND_MAX else 0

lemma witnessRand_poisson : get_poisson_random (1/2) witnessRand 2 0 = some (1, 2) := by
  rw [get_poisson_random, get_poisson_aux]
  have h0 : uniformDraw witnessRand 0 = 1 := by
    simp [uniformDraw, witnessRand, RAND_MAX]
  have h1 : uniformDraw witnessRand 1 = 0 := by
    simp [uniformDraw, witnessRand]
  rw [h0]
  norm_num
  rw [get_poisson_aux]
  rw [h1]
  norm_num

theorem sim_tick_same_minute_zero_wait_witness :
    sim_tick (1/2) witnessRand 2 7 ⟨⟨[], 0⟩, ⟨[], 0, 100⟩, [⟨true, 1⟩], 0, 0⟩ = some
      ⟨⟨List.replicate ((1 : ℤ).toNat - 1) 7, 0 + (1 : ℤ) - 1⟩,
       (add_wait_time true ⟨[], 0, 100⟩ 0).1,
       [⟨true, get_service_time (witnessRand 2)⟩],
       0 + (1 : ℤ),
       2 + 1⟩ :=
  sim_tick_same_minute_zero_wait (1/2) witnessRand 2 7
    ⟨⟨[], 0⟩, ⟨[], 0, 100⟩, [⟨true, 1⟩], 0, 0⟩ 1 2 rfl rfl witnessRand_poisson
    (by norm_num)

/-! ## Claim theorems: the Poisson sampler -/

/-- C3: `get_poisson_random` implements Knuth's product-of-uniforms
algorithm: for every threshold `L = exp(-lambda)` with `lambda > 0`
(i.e. `0 < L < 1`) and every random stream, a completed call makes some
number `d ≥ 1` of uniform draws, stops at the first `d` whose running
product is `≤ L` (every proper prefix of at least one draw has product
`> L`), and returns `d - 1`; the returned count is never negative. -/
theorem get_poisson_random_knuth (L : ℚ) (_hL0 : 0 < L) (_hL1 : L < 1)
    (rand : ℕ → ℕ) (fuel i : ℕ) (n : ℤ) (j : ℕ)
    (h : get_poisson_random L rand fuel i = some (n, j)) :
    0 ≤ n ∧
    ∃ d : ℕ, n = (d : ℤ) - 1 ∧ 1 ≤ d ∧ j = i + d ∧
      prodDraws rand i d ≤ L ∧ ∀ m : ℕ, 1 ≤ m → m < d → L < prodDraws rand i m := by
  obtain ⟨d, h1, h2, h3, h4, h5⟩ := get_poisson_random_sound L rand fuel i n j h
  exact ⟨by omega, d, h1, h2, h3, h4, h5⟩

theorem get_poisson_random_knuth_witness :
    0 ≤ (1 : ℤ) ∧
    ∃ d : ℕ, (1 : ℤ) = (d : ℤ) - 1 ∧ 1 ≤ d ∧ 2 = 0 + d ∧
      prodDraws witnessRand 0 d ≤ 1/2 ∧
      ∀ m : ℕ, 1 ≤ m → m < d → 1/2 < prodDraws witnessRand 0 m :=
  get_poisson_random_knuth (1/2) (by norm_num) (by norm_num) witnessRand 2 0 1 2
    witnessRand_poisson

/-! ## Claim theorems: ledger resize failure -/

/-- C5: when the ledger is full (`count = capacity`) and `realloc` fails,
`add_wait_time` drops only the new value: count, capacity and all
previously recorded wait times are returned unchanged and the warning path
(`perror`) is taken, so the caller's loop simply continues; when growth is
unnecessary or the `realloc` succeeds, the value is appended and `count`
increases by exactly 1 with no warning. -/
theorem add_wait_time_drop_on_failure (s : WaitTimeStorage) (w : ℤ) (allocOk : Bool) :
    (s.count = s.capacity → allocOk = false → add_wait_time allocOk s w = (s, true)) ∧
    (s.count ≠ s.capacity ∨ allocOk = true →
      (add_wait_time allocOk s w).1.wait_times = s.wait_times ++ [w] ∧
      (add_wait_time allocOk s w).1.count = s.count + 1 ∧
      (add_wait_time allocOk s w).2 = false) := by
  constructor
  · intro h1 h2
    subst h2
    simp [add_wait_time, h1]
  · intro h
    rcases h with h | h
    · simp [add_wait_time, h]
    · subst h
      unfold add_wait_time
      split <;> simp

theorem add_wait_time_drop_on_failure_witness :
    add_wait_time false ⟨[(5 : ℤ)], 1, 1⟩ 9 = (⟨[(5 : ℤ)], 1, 1⟩, true) :=
  (add_wait_time_drop_on_failure ⟨[(5 : ℤ)], 1, 1⟩ 9 false).1 rfl rfl

/-! ## Claim theorems: FIFO queue -/

/-- One client operation on the queue. -/
inductive QueueOp where
  | enq (arrival_minute : ℤ)
  | deq
deriving Repr, DecidableEq

/-- Run a sequence of operations on a queue; returns the final queue and
the customers returned by the successful dequeues, in order. -/
def run_queue_ops : List QueueOp → Queue → Queue × List ℤ
  | [], q => (q, [])
  | QueueOp.enq a :: rest, q => run_queue_ops rest (enqueue q a)
  | QueueOp.deq :: rest, q =>
    match dequeue q with
    | (some a, q') =>
      let (qf, outs) := run_queue_ops rest q'
      (qf, a :: outs)
    | (_, q') => run_queue_ops rest q'

/-- The values enqueued by a sequence of operations, in order. -/
def enqueued_values : List QueueOp → List ℤ
  | [] => []
  | QueueOp.enq a :: rest => a :: enqueued_values rest
  | QueueOp.deq :: rest => enqueued_values rest

lemma run_queue_ops_split :
    ∀ (ops : List QueueOp) (q : Queue),
      (run_queue_ops ops q).2 ++ (run_queue_ops ops q).1.front =
        q.front ++ enqueued_values ops
  | [], q => by simp [run_queue_ops, enqueued_values]
  | QueueOp.enq a :: rest, q => by
    rw [run_queue_ops, enqueued_values, run_queue_ops_split rest (enqueue q a)]
    simp [enqueue]
  | QueueOp.deq :: rest, q => by
    rw [run_queue_ops]
    cases hq : q.front with
    | nil =>
      have hdq : dequeue q = (none, q) := by simp [dequeue, hq]
      rw [hdq]
      simp only
      rw [enqueued_values, run_queue_ops_split rest q, hq]
    | cons c l =>
      have hdq : dequeue q = (some c, ⟨l, q.customer_count - 1⟩) := by simp [dequeue, hq]
      rw [hdq]
      simp only
      rcases hrec : run_queue_ops rest ⟨l, q.customer_count - 1⟩ with ⟨qf, outs⟩
      have := run_queue_ops_split rest ⟨l, q.customer_count - 1⟩
      rw [hrec] at this
      simp only at this
      simp only [hrec, enqueued_values, hq]
      simp [this]

/-- C7: the queue is FIFO.  `dequeue` on an empty queue returns the empty
signal (NULL) and leaves the queue unchanged; on a non-empty queue it
removes and returns the front customer; and over any sequence of operations
from the empty queue, the dequeued values followed by the remaining queue
contents are exactly the enqueued values in their enqueue order (so the
dequeue order is a prefix of the enqueue order — no reordering). -/
theorem queue_fifo :
    (∀ q : Queue, q.front = [] → dequeue q = (none, q)) ∧
    (∀ (q : Queue) (c : ℤ) (l : List ℤ), q.front = c :: l →
      dequeue q = (some c, ⟨l, q.customer_count - 1⟩)) ∧
    (∀ ops : List QueueOp,
      (run_queue_ops ops create_queue).2 ++ (run_queue_ops ops create_queue).1.front =
        enqueued_values ops) := by
  refine ⟨?_, ?_, ?_⟩
  · intro q h
    simp [dequeue, h]
  · intro q c l h
    exact dequeue_cons q c l h
  · intro ops
    rw [run_queue_ops_split ops create_queue]
    simp [create_queue]

theorem queue_fifo_witness :
    dequeue ⟨[(4 : ℤ), 8], 2⟩ = (some 4, ⟨[(8 : ℤ)], 2 - 1⟩) :=
  queue_fifo.2.1 ⟨[(4 : ℤ), 8], 2⟩ 4 [8] rfl

/-! ## Claim theorems: input validation in `main` -/

/-- Outcome of `main`: process exit code, whether `run_simulation` was
reached, and whether the invalid-input message was printed. -/
structure MainResult where
  exit_code : ℤ
  simulation_run : Bool
  error_message : Bool
deriving Repr, DecidableEq

/-- `main`, with the two `scanf` results abstracted as `Option` parse
results (`none` = unparseable input): read lambda and validate
(`scanf(...) != 1 || lambda <= 0` returns 1), then read the teller count
and validate likewise, then run the simulation and return 0. -/
def main_model (lambda_input : Option ℚ) (tellers_input : Option ℤ) : MainResult :=
  match lambda_input with
  | none => ⟨1, false, true⟩
  | some lambda =>
    if lambda ≤ 0 then ⟨1, false, true⟩
    else
      match tellers_input with
      | none => ⟨1, false, true⟩
      | some num_tellers =>
        if num_tellers ≤ 0 then ⟨1, false, true⟩
        else ⟨0, true, false⟩

/-- C8: the simulation is reached exactly when lambda parses to a positive
value and the teller count parses to a positive value; on every other
input `main` stops before the simulation with exit status 1 and an error
message to the operator. -/
theorem main_input_validation (lambda_input : Option ℚ) (tellers_input : Option ℤ) :
    ((main_model lambda_input tellers_input).simulation_run = true ↔
      (∃ lam, lambda_input = some lam ∧ 0 < lam) ∧
      (∃ k, tellers_input = some k ∧ 0 < k)) ∧
    ((main_model lambda_input tellers_input).simulation_run = false →
      (main_model lambda_input tellers_input).exit_code = 1 ∧
      (main_model lambda_input tellers_input).error_message = true) := by
  cases lambda_input with
  | none => simp [main_model]
  | some lam =>
    by_cases hl : lam ≤ 0
    · constructor
      · simp [main_model, hl]
      · simp [main_model, hl]
    · cases tellers_input with
      | none => simp [main_model, hl]
      | some k =>
        by_cases hk : k ≤ 0
        · constructor
          · simp [main_model, hl, hk]
          · simp [main_model, hl, hk]
        · simp [main_model, hl, hk, not_le.mp hl, not_le.mp hk]

theorem main_input_validation_witness :
    (main_model (some (-1)) (some 3)).exit_code = 1 ∧
    (main_model (some (-1)) (some 3)).error_message = true :=
  (main_input_validation (some (-1)) (some 3)).2 (by norm_num [main_model])

/-! ## Claim theorems: the mode of the wait times (section 5 of the C file) -/

/-- First loop of `get_mode`: running maximum of the data, starting at 0. -/
def mode_max_val (data : List ℕ) : ℕ :=
  data.foldl (fun max_val x => if x > max_val then x else max_val) 0

/-- `freq_array_size = (max_val < 1) ? 1 : max_val + 1`. -/
def mode_freq_size (data : List ℕ) : ℕ :=
  if mode_max_val data < 1 then 1 else mode_max_val data + 1

/-- The `calloc`ed frequency array after the counting loop
(`frequency[data[i]]++`).  The `calloc` is assumed to succeed; wait times
recorded by the simulation are non-negative, so the data is a list of
naturals. -/
def mode_frequency (data : List ℕ) : List ℕ :=
  data.foldl (fun frequency x => frequency.set x (frequency.getD x 0 + 1))
    (List.replicate (mode_freq_size data) 0)

/-- The final scan of `get_mode`: walk `i = 0 .. n - 1` keeping
`(mode, max_freq)`, both starting at 0, replacing them whenever
`frequency[i] > max_freq`. -/
def scan_fold (F : List ℕ) (n : ℕ) : ℕ × ℕ :=
  (List.range n).foldl
    (fun mm i => if F.getD i 0 > mm.2 then (i, F.getD i 0) else mm) (0, 0)

/-- `get_mode`: 0 for empty data, otherwise the index component of the
frequency scan. -/
def get_mode (data : List ℕ) : ℕ :=
  if data.length = 0 then 0
  else (scan_fold (mode_frequency data) (mode_freq_size data)).1

lemma foldl_max_init : ∀ (data : List ℕ) (a : ℕ),
    a ≤ data.foldl (fun max_val x => if x > max_val then x else max_val) a
  | [], a => le_refl a
  | y :: rest, a => by
    rw [List.foldl_cons]
    refine le_trans ?_ (foldl_max_init rest _)
    split <;> omega

lemma mem_le_foldl_max : ∀ (data : List ℕ) (a x : ℕ), x ∈ data →
    x ≤ data.foldl (fun max_val x => if x > max_val then x else max_val) a
  | [], _, x, hx => absurd hx (List.not_mem_nil x)
  | y :: rest, a, x, hx => by
    rw [List.foldl_cons]
    rcases List.mem_cons.mp hx with rfl | hx2
    · refine le_trans ?_ (foldl_max_init rest _)
      split <;> omega
    · exact mem_le_foldl_max rest _ x hx2

lemma mem_lt_mode_freq_size (data : List ℕ) (x : ℕ) (hx : x ∈ data) :
    x < mode_freq_size data := by
  have h : x ≤ mode_max_val data := mem_le_foldl_max data 0 x hx
  unfold mode_freq_size
  split <;> omega

lemma foldl_set_getD : ∀ (data : List ℕ) (f : List ℕ),
    (∀ x ∈ data, x < f.length) → ∀ v : ℕ,
      (data.foldl (fun frequency x => frequency.set x (frequency.getD x 0 + 1)) f).getD v 0 =
        f.getD v 0 + data.count v
  | [], f, _, v => by simp
  | x :: rest, f, h, v => by
    rw [List.foldl_cons]
    have hx : x < f.length := h x (List.mem_cons_self x rest)
    have hrest : ∀ y ∈ rest, y < (f.set x (f.getD x 0 + 1)).length := by
      rw [List.length_set]
      exact fun y hy => h y (List.mem_cons_of_mem x hy)
    rw [foldl_set_getD rest _ hrest v, List.count_cons]
    by_cases hvx : x = v
    · subst hvx
      have hset : (f.set x (f.getD x 0 + 1)).getD x 0 = f.getD x 0 + 1 := by
        rw [List.getD_eq_getElem?_getD, List.getElem?_set_eq_of_lt _ hx]
        rfl
      rw [hset]
      simp
      omega
    · have hset : (f.set x (f.getD x 0 + 1)).getD v 0 = f.getD v 0 := by
        rw [List.getD_eq_getElem?_getD, List.getElem?_set_ne hvx,
          ← List.getD_eq_getElem?_getD]
      rw [hset]
      simp [hvx]

lemma mode_frequency_getD (data : List ℕ) (v : ℕ) :
    (mode_frequency data).getD v 0 = data.count v := by
  unfold mode_frequency
  rw [foldl_set_getD data _
    (fun x hx => by rw [List.length_replicate]; exact mem_lt_mode_freq_size data x hx) v]
  have hrep : (List.replicate (mode_freq_size data) 0).getD v 0 = 0 := by
    rw [List.getD_eq_getElem?_getD, List.getElem?_replicate]
    split <;> rfl
  rw [hrep]
  omega

lemma scan_fold_succ (F : List ℕ) (n : ℕ) :
    scan_fold F (n + 1) =
      if F.getD n 0 > (scan_fold F n).2 then (n, F.getD n 0) else scan_fold F n := by
  unfold scan_fold
  rw [List.range_succ, List.foldl_append, List.foldl_cons, List.foldl_nil]

lemma scan_fold_spec (F : List ℕ) : ∀ n : ℕ,
    (scan_fold F n = (0, 0) ∧ ∀ i, i < n → F.getD i 0 = 0) ∨
    (F.getD (scan_fold F n).1 0 = (scan_fold F n).2 ∧ (scan_fold F n).1 < n ∧
      0 < (scan_fold F n).2 ∧ (∀ i, i < n → F.getD i 0 ≤ (scan_fold F n).2) ∧
      ∀ i, i < (scan_fold F n).1 → F.getD i 0 < (scan_fold F n).2)
  | 0 => Or.inl ⟨rfl, by omega⟩
  | n + 1 => by
    rcases scan_fold_spec F n with ⟨h1, h2⟩ | ⟨h1, h2, h3, h4, h5⟩
    · rw [scan_fold_succ, h1]
      by_cases hn : F.getD n 0 > 0
      · rw [if_pos hn]
        right
        refine ⟨rfl, by omega, hn, ?_, ?_⟩
        · intro i hi
          rcases Nat.lt_succ_iff_lt_or_eq.mp hi with h | rfl
          · rw [h2 i h]
            omega
          · exact le_refl _
        · intro i hi
          simp only at hi
          rw [h2 i hi]
          exact hn
      · rw [if_neg hn]
        left
        refine ⟨rfl, ?_⟩
        intro i hi
        rcases Nat.lt_succ_iff_lt_or_eq.mp hi with h | rfl
        · exact h2 i h
        · omega
    · rw [scan_fold_succ]
      by_cases hn : F.getD n 0 > (scan_fold F n).2
      · rw [if_pos hn]
        right
        refine ⟨rfl, by omega, by omega, ?_, ?_⟩
        · intro i hi
          simp only
          rcases Nat.lt_succ_iff_lt_or_eq.mp hi with h | rfl
          · have := h4 i h
            omega
          · exact le_refl _
        · intro i hi
          simp only at hi ⊢
          have := h4 i hi
          omega
      · rw [if_neg hn]
        right
        refine ⟨h1, by omega, h3, ?_, h5⟩
        intro i hi
        rcases Nat.lt_succ_iff_lt_or_eq.mp hi with h | rfl
        · exact h4 i h
        · omega

/-- C4: for non-empty non-negative data, `get_mode` returns a value of
maximum frequency, and among the values attaining that frequency it
returns the smallest (the frequency array is scanned in ascending index
order and only a strictly greater count displaces the current mode); the
tie `[1,1,2,2]` yields mode 1, and empty data yields 0. -/
theorem get_mode_spec :
    get_mode [] = 0 ∧
    get_mode [1, 1, 2, 2] = 1 ∧
    ∀ data : List ℕ, data ≠ [] →
      (∀ v : ℕ, data.count v ≤ data.count (get_mode data)) ∧
      ∀ v : ℕ, data.count v = data.count (get_mode data) → get_mode data ≤ v := by
  refine ⟨rfl, by decide, ?_⟩
  intro data hne
  have hlen : ¬(data.length = 0) := by simpa using hne
  have hmode : get_mode data = (scan_fold (mode_frequency data) (mode_freq_size data)).1 := by
    unfold get_mode
    rw [if_neg hlen]
  rcases scan_fold_spec (mode_frequency data) (mode_freq_size data) with
    ⟨h1, h2⟩ | ⟨h1, h2, h3, h4, h5⟩
  · exfalso
    obtain ⟨x, hx⟩ := List.exists_mem_of_ne_nil data hne
    have hcount : 0 < data.count x := List.count_pos_iff.mpr hx
    have hxlt : x < mode_freq_size data := mem_lt_mode_freq_size data x hx
    have hz := h2 x hxlt
    rw [mode_frequency_getD] at hz
    omega
  · rw [hmode] at *
    rw [mode_frequency_getD] at h1
    constructor
    · intro v
      by_cases hv : v < mode_freq_size data
      · have hle := h4 v hv
        rw [mode_frequency_getD] at hle
        omega
      · have hnotmem : v ∉ data := fun hmem => hv (mem_lt_mode_freq_size data v hmem)
        rw [List.count_eq_zero.mpr hnotmem]
        omega
    · intro v hveq
      by_contra hlt
      push_neg at hlt
      have hv := h5 v hlt
      rw [mode_frequency_getD] at hv
      omega

theorem get_mode_spec_witness : get_mode [1, 1, 2, 2] ≤ 2 :=
  (get_mode_spec.2.2 [1, 1, 2, 2] (by decide)).2 2 (by decide)
